import Mathlib

/-!
Formal model of the trust-factor extension panel (src/main.tsx).

The development embeds the logic of the panel shallowly:
score aggregation (calculateTotalScore), the tier colouring of the
composite score (the ternary chain rendering the score), the message
listener with its per-link batch analysis fan-out, and the
injection command handler (injectScript).
-/

namespace TrustFactor

/-- JavaScript runtime numbers as they occur in this program: NaN,
the two infinities, or an exact rational value.  The arithmetic the
panel performs (integer sums, one division, one multiplication by 100,
Math.round) is modelled exactly over the rationals. -/
inductive JsNum where
  | nan
  | inf
  | negInf
  | num (q : ℚ)
deriving DecidableEq

/-- JavaScript division `a / b` for finite operands: division by zero
yields NaN for `0 / 0` and a signed infinity otherwise. -/
def jsDiv (a b : ℚ) : JsNum :=
  if b = 0 then
    if a = 0 then .nan else if 0 < a then .inf else .negInf
  else .num (a / b)

/-- JavaScript multiplication of an intermediate value by a finite
constant (`percentageScore = (...) * 100`): NaN propagates, an infinity
keeps or flips its sign, `inf * 0` is NaN. -/
def jsMul (a : JsNum) (c : ℚ) : JsNum :=
  match a with
  | .nan => .nan
  | .inf => if c = 0 then .nan else if 0 < c then .inf else .negInf
  | .negInf => if c = 0 then .nan else if 0 < c then .negInf else .inf
  | .num q => .num (q * c)

/-- JavaScript `Math.round`: rounds a finite value to the nearest
integer, halves toward positive infinity; NaN and the infinities are
returned unchanged. -/
def jsRound (a : JsNum) : JsNum :=
  match a with
  | .nan => .nan
  | .inf => .inf
  | .negInf => .negInf
  | .num q => .num ((⌊q + 1/2⌋ : ℤ) : ℚ)

/-- JavaScript comparison `a <= c` with a finite right operand: any
comparison with NaN is false. -/
def jsLe (a : JsNum) (c : ℚ) : Bool :=
  match a with
  | .nan => false
  | .inf => false
  | .negInf => true
  | .num q => decide (q ≤ c)

/-- interface ScoreData: quotes plus a numeric score (src/main.tsx 34-37). -/
structure ScoreData where
  quotes : List String
  score : ℚ
deriving DecidableEq

/-- interface Results: a Record from category key to ScoreData
(src/main.tsx 39-41).  The record is modelled as an association list in
insertion order, which is the order Object.values enumerates. -/
structure Results where
  scores : List (String × ScoreData)
deriving DecidableEq

/-- Object.values(results.scores): the ScoreData values in insertion order. -/
def Results.values (r : Results) : List ScoreData :=
  r.scores.map Prod.snd

/-- calculateTotalScore (src/main.tsx 83-90): sums every score, divides
by five times the number of categories, scales to a percentage and
applies Math.round.  On an empty map the division is `0 / 0`, so the
JavaScript result is NaN. -/
def calculateTotalScore (results : Results) : JsNum :=
  let scores := results.values
  let totalScores := (scores.map ScoreData.score).sum
  let maxPossibleScore : ℚ := (scores.length : ℚ) * 5
  let percentageScore := jsMul (jsDiv totalScores maxPossibleScore) 100
  jsRound percentageScore

/-- The tier colouring of the composite score (src/main.tsx 258-259):
`score <= 40` renders the red low-trust presentation, `score <= 80` the
blue moderate presentation, anything above the purple high-trust
presentation. -/
def scoreColor (score : JsNum) : String :=
  if jsLe score 40 then "text-red-500"
  else if jsLe score 80 then "text-blue-600"
  else "text-purple-500"

/-- The literal type of a discovered link (src/main.tsx 19). -/
inductive LinkType where
  | policy
  | terms
deriving DecidableEq

/-- interface LinkData (src/main.tsx 16-21). -/
structure LinkData where
  href : String
  text : String
  type : LinkType
  pageTitle : Option String
deriving DecidableEq

/-- interface Metadata (src/main.tsx 93-96). -/
structure Metadata where
  risk_percentage : ℚ
  risk_level : String
deriving DecidableEq

/-- interface ApiResponse (src/main.tsx 98-101). -/
structure ApiResponse where
  scores : Results
  metadata : Metadata
deriving DecidableEq

/-- The outcome of the HTTP POST that fetchAnalysis performs for one
URL: either the fetch promise itself rejects (network error), or a
response arrives with an ok flag and a body whose JSON parse may fail. -/
inductive HttpResult where
  | networkError (msg : String)
  | response (ok : Bool) (body : Except String ApiResponse)

/-- fetchAnalysis (src/main.tsx 131-150): performs one POST for the
given url.  A non-ok response becomes the thrown error
`Failed to fetch analysis`; a rejected fetch or a failed JSON parse is
logged and rethrown unchanged.  The network is passed in as a function
from url to HttpResult. -/
def fetchAnalysis (net : String → HttpResult) (url : String) :
    Except String ApiResponse :=
  match net url with
  | .networkError msg => .error msg
  | .response false _ => .error "Failed to fetch analysis"
  | .response true body => body

/-- One element of the array the message listener builds: the original
link fields, with the analysis attached when the fetch succeeded
(`{...link, analysis}`) and absent when it threw (the bare `link`). -/
structure AnalyzedLink where
  href : String
  text : String
  type : LinkType
  pageTitle : Option String
  analysis : Option ApiResponse
deriving DecidableEq

/-- The per-link closure of the fan-out (src/main.tsx 162-169): try to
fetch the analysis for the link; on success return the spread
`{...link, analysis}`, on failure catch, log and return the link
unchanged. -/
def analyzeLink (net : String → HttpResult) (link : LinkData) : AnalyzedLink :=
  match fetchAnalysis net link.href with
  | .ok analysis => ⟨link.href, link.text, link.type, link.pageTitle, some analysis⟩
  | .error _ => ⟨link.href, link.text, link.type, link.pageTitle, none⟩

/-- The resolved value of `Promise.all(message.links.map(...))`
(src/main.tsx 161-171): one AnalyzedLink per input link, in input
order. -/
def batchAnalyze (net : String → HttpResult) (links : List LinkData) :
    List AnalyzedLink :=
  links.map (analyzeLink net)

/-- Promise.all writes each settled result into the slot of its
originating index.  fillSlots replays the settlements in an arbitrary
completion order `sched`, writing task i into slot i. -/
def fillSlots (task : Nat → Option AnalyzedLink) :
    List Nat → List (Option AnalyzedLink) → List (Option AnalyzedLink)
  | [], slots => slots
  | i :: rest, slots => fillSlots task rest (slots.set i (task i))

/-- The slot array of the batch after every fetch settled, when the
fetches completed in the order given by `sched`. -/
def batchAnalyzeScheduled (net : String → HttpResult) (links : List LinkData)
    (sched : List Nat) : List (Option AnalyzedLink) :=
  fillSlots (fun i => (links[i]?).map (analyzeLink net)) sched
    (List.replicate links.length none)

/-- interface ContentScriptMessage (src/main.tsx 24-27).  The action is
kept as a string so that the runtime check
`message.action === "sendLinks"` in the listener stays meaningful. -/
structure ContentScriptMessage where
  action : String
  links : List LinkData
deriving DecidableEq

/-- The fixed acknowledgement payload the listener passes to
sendResponse (src/main.tsx 175). -/
structure Farewell where
  farewell : String
deriving DecidableEq

/-- The state held by the Sidebar component (src/main.tsx 104-127):
links, isInjecting and error have setters; results is created by a
useState whose setter is never destructured, so no code can update it. -/
structure SidebarState where
  links : List AnalyzedLink
  isInjecting : Bool
  error : Option String
  results : Results
deriving DecidableEq

/-- The hardcoded initial value of the results state
(src/main.tsx 107-127). -/
def initialResults : Results :=
  ⟨[("account_control", ⟨["exact quote 1", "exact quote 2"], 3⟩),
    ("data_collection", ⟨["exact quote 1", "exact quote 2"], 2⟩),
    ("privacy_info", ⟨["exact quote 1", "exact quote 2"], 4⟩),
    ("account_testing", ⟨["exact quote 1", "exact quote 2"], 5⟩)]⟩

/-- The initial Sidebar state: links [], isInjecting false, error null,
results the hardcoded map. -/
def initialState : SidebarState :=
  ⟨[], false, none, initialResults⟩

/-- Observable events of one run of the message listener, in the order
the listener performs them: a settled analysis fetch for some href, the
setLinks and setError state updates, and the sendResponse call. -/
inductive Event where
  | fetchSettled (href : String)
  | setLinks (ls : List AnalyzedLink)
  | setError (e : Option String)
  | sendResponse (r : Farewell)
deriving DecidableEq

/-- messageListener (src/main.tsx 154-176) as a state transformer
together with its event trace.  On a sendLinks message it awaits
`Promise.all` over the per-link fetches — `sched` is the completion
order of those fetches — then stores the analyzed links, clears the
error and only then calls sendResponse.  On any other message it calls
sendResponse at once.  The results state is untouched in both cases. -/
def messageListener (net : String → HttpResult) (sched : List Nat)
    (s : SidebarState) (msg : ContentScriptMessage) :
    SidebarState × List Event :=
  if msg.action = "sendLinks" then
    let linksWithAnalysis := batchAnalyze net msg.links
    ({ s with links := linksWithAnalysis, error := none },
      (sched.filterMap fun i => (msg.links[i]?).map fun l => Event.fetchSettled l.href)
        ++ [Event.setLinks linksWithAnalysis, Event.setError none,
            Event.sendResponse ⟨"goodbye"⟩])
  else
    (s, [Event.sendResponse ⟨"goodbye"⟩])

/-- interface InjectionResponse (src/main.tsx 29-32). -/
structure InjectionResponse where
  status : String
  error : Option String
deriving DecidableEq

/-- What `chrome.runtime.sendMessage` did for the injection command:
the promise rejected (`threw`, carrying the message of the thrown value
when it was an Error), or it resolved with a response that may be
null or undefined. -/
inductive SendMessageResult where
  | threw (errMsg : Option String)
  | responded (resp : Option InjectionResponse)
deriving DecidableEq

/-- JavaScript `x || d` for the optional string x: null, undefined and
the empty string are falsy and fall through to the default. -/
def jsOrDefault (x : Option String) (d : String) : String :=
  match x with
  | some e => if e = "" then d else e
  | none => d

/-- injectScript (src/main.tsx 185-207): set isInjecting and clear the
error; await sendMessage; a response whose status is not `success`
(including a missing response) raises an Error built from
`response?.error || "Failed to inject content script"`; any caught
value sets the error state to its message, or to
`Unknown error occurred` when it is not an Error; the finally block
always resets isInjecting. -/
def injectScript (s : SidebarState) (r : SendMessageResult) : SidebarState :=
  let s1 := { s with isInjecting := true, error := none }
  let s2 :=
    match r with
    | .responded (some resp) =>
        if resp.status = "success" then s1
        else { s1 with
          error := some (jsOrDefault resp.error "Failed to inject content script") }
    | .responded none =>
        { s1 with error := some "Failed to inject content script" }
    | .threw m =>
        { s1 with error := some (m.getD "Unknown error occurred") }
  { s2 with isInjecting := false }

/-- The states the Sidebar can be in: the initial render, and anything
produced from a reachable state by a delivered runtime message, by the
synchronous prefix of injectScript (isInjecting true, error cleared,
awaiting sendMessage), or by a completed injectScript call. -/
inductive Reachable : SidebarState → Prop where
  | init : Reachable initialState
  | message (net : String → HttpResult) (sched : List Nat)
      (msg : ContentScriptMessage) {s : SidebarState} :
      Reachable s → Reachable (messageListener net sched s msg).1
  | injectStart {s : SidebarState} :
      Reachable s → Reachable { s with isInjecting := true, error := none }
  | inject (r : SendMessageResult) {s : SidebarState} :
      Reachable s → Reachable (injectScript s r)

/-- C1: for every non-empty CategoryMap whose scores are integers in
[0,5], calculateTotalScore returns an integer percentage in [0,100]
equal to round(100 * sum(scores) / (5 * number_of_categories)), where
round is round-half-up as Math.round implements it. -/
theorem calculateTotalScore_percentage (r : Results)
    (hne : r.values ≠ [])
    (hint : ∀ sd ∈ r.values, ∃ k : ℤ, sd.score = (k : ℚ) ∧ 0 ≤ k ∧ k ≤ 5) :
    ∃ p : ℤ, calculateTotalScore r = .num (p : ℚ) ∧ 0 ≤ p ∧ p ≤ 100 ∧
      p = ⌊(100 * (r.values.map ScoreData.score).sum /
            (5 * (r.values.length : ℚ)) + 1/2 : ℚ)⌋ := by
  have hn0 : 0 < r.values.length := List.length_pos.mpr hne
  have hnq : (0 : ℚ) < (r.values.length : ℚ) := by exact_mod_cast hn0
  have hq : ((r.values.length : ℚ) * 5) ≠ 0 := by positivity
  have hS0 : 0 ≤ (r.values.map ScoreData.score).sum := by
    apply List.sum_nonneg
    intro x hx
    obtain ⟨sd, hsd, rfl⟩ := List.mem_map.mp hx
    obtain ⟨k, hk, hk0, _⟩ := hint sd hsd
    rw [hk]
    exact_mod_cast hk0
  have hS5 : (r.values.map ScoreData.score).sum ≤ (r.values.length : ℚ) * 5 := by
    have := List.sum_le_card_nsmul (r.values.map ScoreData.score) 5 ?_
    · simpa [nsmul_eq_mul] using this
    · intro x hx
      obtain ⟨sd, hsd, rfl⟩ := List.mem_map.mp hx
      obtain ⟨k, hk, _, hk5⟩ := hint sd hsd
      rw [hk]
      exact_mod_cast hk5
  refine ⟨⌊(r.values.map ScoreData.score).sum / ((r.values.length : ℚ) * 5) * 100
      + 1/2⌋, ?_, ?_, ?_, ?_⟩
  · simp only [calculateTotalScore, jsDiv, if_neg hq, jsMul, jsRound]
  · rw [Int.floor_nonneg]
    have : 0 ≤ (r.values.map ScoreData.score).sum / ((r.values.length : ℚ) * 5) * 100 := by
      positivity
    linarith
  · have hle : (r.values.map ScoreData.score).sum / ((r.values.length : ℚ) * 5) ≤ 1 :=
      (div_le_one (by positivity)).mpr hS5
    have : (r.values.map ScoreData.score).sum / ((r.values.length : ℚ) * 5) * 100
        + 1/2 ≤ 201/2 := by linarith
    calc ⌊(r.values.map ScoreData.score).sum / ((r.values.length : ℚ) * 5) * 100 + 1/2⌋
        ≤ ⌊(201/2 : ℚ)⌋ := Int.floor_le_floor this
      _ = 100 := by norm_num
  · congr 1
    field_simp
    ring

/-- A reusable concrete one-category map with score 3. -/
def singleCatResults : Results := ⟨[("a", ⟨[], 3⟩)]⟩

/-- Witness for C1 at a one-category map with score 3: the composite is
round(100 * 3 / 5) = 60. -/
theorem calculateTotalScore_percentage_witness :
    ∃ p : ℤ, calculateTotalScore singleCatResults = .num (p : ℚ) ∧ 0 ≤ p ∧ p ≤ 100 ∧
      p = ⌊(100 * (singleCatResults.values.map ScoreData.score).sum /
            (5 * (singleCatResults.values.length : ℚ)) + 1/2 : ℚ)⌋ :=
  calculateTotalScore_percentage singleCatResults
    (by simp [singleCatResults, Results.values])
    (by
      intro sd hsd
      simp [singleCatResults, Results.values] at hsd
      exact ⟨3, by rw [hsd]; norm_num, by norm_num, by norm_num⟩)

/-- C3 counterexample: on the empty CategoryMap calculateTotalScore
evaluates `0 / 0`, so it returns the value NaN rather than failing with
an AggregationError — the source of calculateTotalScore contains no
throw and no error type at all, so no failure can occur. -/
theorem aggregate_empty_not_error_cex : calculateTotalScore ⟨[]⟩ = .nan := by
  norm_num [calculateTotalScore, Results.values, jsDiv, jsMul, jsRound]

/-- C3 amended: on every empty CategoryMap calculateTotalScore returns
NaN — it neither throws nor returns a finite numeric value. -/
theorem empty_map_yields_nan (r : Results) (h : r.scores = []) :
    calculateTotalScore r = .nan ∧ ∀ q : ℚ, calculateTotalScore r ≠ .num q := by
  obtain ⟨sc⟩ := r
  simp only at h
  subst h
  have h1 : calculateTotalScore ⟨[]⟩ = .nan := by
    norm_num [calculateTotalScore, Results.values, jsDiv, jsMul, jsRound]
  exact ⟨h1, fun q hq => by rw [h1] at hq; cases hq⟩

/-- Witness for the amended C3 at the literal empty map. -/
theorem empty_map_yields_nan_witness :
    calculateTotalScore ⟨[]⟩ = .nan ∧ ∀ q : ℚ, calculateTotalScore ⟨[]⟩ ≠ .num q :=
  empty_map_yields_nan ⟨[]⟩ rfl

/-- C4: the tier presentation of an integer composite percentage p is
the red low-trust rendering when p <= 40, the blue moderate rendering
when 40 < p <= 80 and the purple high-trust rendering when p > 80; in
particular 40 is low-trust, 41 and 80 moderate, 81 high-trust. -/
theorem scoreColor_tiers :
    scoreColor (.num 40) = "text-red-500" ∧
    scoreColor (.num 41) = "text-blue-600" ∧
    scoreColor (.num 80) = "text-blue-600" ∧
    scoreColor (.num 81) = "text-purple-500" ∧
    (∀ p : ℤ, (p : ℚ) ≤ 40 → scoreColor (.num (p : ℚ)) = "text-red-500") ∧
    (∀ p : ℤ, 40 < (p : ℚ) → (p : ℚ) ≤ 80 →
      scoreColor (.num (p : ℚ)) = "text-blue-600") ∧
    (∀ p : ℤ, 80 < (p : ℚ) → scoreColor (.num (p : ℚ)) = "text-purple-500") := by
  refine ⟨by norm_num [scoreColor, jsLe], by norm_num [scoreColor, jsLe],
    by norm_num [scoreColor, jsLe], by norm_num [scoreColor, jsLe], ?_, ?_, ?_⟩
  · intro p hp
    simp [scoreColor, jsLe, hp]
  · intro p hp1 hp2
    simp [scoreColor, jsLe, not_le.mpr hp1, hp2]
  · intro p hp
    simp [scoreColor, jsLe, not_le.mpr hp, not_le.mpr (by linarith : (40 : ℚ) < (p : ℚ))]

/-- Witness for C4 at the boundary percentage 40. -/
theorem scoreColor_tiers_witness :
    scoreColor (.num ((40 : ℤ) : ℚ)) = "text-red-500" :=
  scoreColor_tiers.2.2.2.2.1 40 (by norm_num)

theorem fillSlots_length (task : Nat → Option AnalyzedLink) (sched : List Nat)
    (slots : List (Option AnalyzedLink)) :
    (fillSlots task sched slots).length = slots.length := by
  induction sched generalizing slots with
  | nil => rfl
  | cons i rest ih => simp [fillSlots, ih]

theorem fillSlots_getElem? (task : Nat → Option AnalyzedLink) (sched : List Nat)
    (slots : List (Option AnalyzedLink)) (j : Nat) (hj : j < slots.length) :
    (fillSlots task sched slots)[j]? =
      if j ∈ sched then some (task j) else slots[j]? := by
  induction sched generalizing slots with
  | nil => simp [fillSlots]
  | cons i rest ih =>
    rw [fillSlots, ih _ (by simpa using hj)]
    by_cases hjr : j ∈ rest
    · simp [hjr]
    · by_cases hij : i = j
      · subst hij
        simp [hjr, List.getElem?_set_self hj]
      · simp [hjr, List.getElem?_set_ne hij, Ne.symm hij]

/-- The slot array Promise.all fills is independent of the completion
order: replaying the settlements in any order covering every index
yields exactly the in-input-order batch. -/
theorem batchAnalyzeScheduled_eq (net : String → HttpResult) (links : List LinkData)
    (sched : List Nat) (hperm : sched.Perm (List.range links.length)) :
    batchAnalyzeScheduled net links sched = (batchAnalyze net links).map some := by
  apply List.ext_getElem?
  intro j
  by_cases hj : j < links.length
  · rw [batchAnalyzeScheduled,
      fillSlots_getElem? _ _ _ _ (by simpa using hj)]
    have hmem : j ∈ sched := by
      rw [hperm.mem_iff, List.mem_range]
      exact hj
    rw [if_pos hmem]
    simp [batchAnalyze, List.getElem?_eq_getElem hj]
  · have h1 : (batchAnalyzeScheduled net links sched).length ≤ j := by
      rw [batchAnalyzeScheduled, fillSlots_length]
      simpa using Nat.le_of_not_lt hj
    have h2 : ((batchAnalyze net links).map some).length ≤ j := by
      simpa [batchAnalyze] using Nat.le_of_not_lt hj
    rw [List.getElem?_eq_none h1, List.getElem?_eq_none h2]

/-- C2: the batch fan-out over a link sequence yields one outcome per
input link, in input order, and — via the scheduled replay — the same
array regardless of the order in which the fetches complete; when
exactly one link's fetch throws, the batch still yields all N entries
and every other entry carries a successful analysis. -/
theorem batch_partial_failure (net : String → HttpResult) (links : List LinkData)
    (k : ℕ) (hk : k < links.length)
    (hfail : ∃ e, fetchAnalysis net links[k].href = .error e)
    (hok : ∀ j (hj : j < links.length), j ≠ k →
      ∃ a, fetchAnalysis net links[j].href = .ok a) :
    (batchAnalyze net links).length = links.length ∧
    (∀ sched, sched.Perm (List.range links.length) →
      batchAnalyzeScheduled net links sched = (batchAnalyze net links).map some) ∧
    (∀ j (hj : j < links.length), ∃ al,
      (batchAnalyze net links)[j]? = some al ∧
      al.href = links[j].href ∧
      (al.analysis = none ↔ j = k)) := by
  refine ⟨by simp [batchAnalyze], fun sched hp => batchAnalyzeScheduled_eq net links sched hp, ?_⟩
  intro j hj
  refine ⟨analyzeLink net links[j], ?_, ?_, ?_⟩
  · simp [batchAnalyze, List.getElem?_eq_getElem hj]
  · cases hfa : fetchAnalysis net links[j].href <;>
      simp [analyzeLink, hfa]
  · by_cases hjk : j = k
    · subst hjk
      obtain ⟨e, he⟩ := hfail
      simp [analyzeLink, he]
    · obtain ⟨a, ha⟩ := hok j hj hjk
      simp [analyzeLink, ha, hjk]

/-- A concrete successful analysis payload used by the witnesses. -/
def wApi : ApiResponse := ⟨⟨[("cat", ⟨["q"], 1⟩)]⟩, ⟨20, "low"⟩⟩

/-- A concrete network in which only the url u2 fails. -/
def wNet : String → HttpResult := fun url =>
  if url = "u2" then .networkError "netdown" else .response true (.ok wApi)

/-- Three concrete links; the middle one points at the failing url. -/
def wLinks : List LinkData :=
  [⟨"u1", "t1", .terms, none⟩, ⟨"u2", "p2", .policy, none⟩,
   ⟨"u3", "t3", .terms, some "T"⟩]

/-- Witness for C2: in the three-link batch over wNet, where only the
second fetch throws, the second entry is present, correlated to its
link and markerless of analysis. -/
theorem batch_partial_failure_witness :
    ∃ al, (batchAnalyze wNet wLinks)[1]? = some al ∧
      al.href = (wLinks.get ⟨1, by decide⟩).href ∧ (al.analysis = none ↔ 1 = 1) :=
  (batch_partial_failure wNet wLinks 1 (by decide)
    ⟨"netdown", by simp [fetchAnalysis, wNet, wLinks]⟩
    (fun j hj hjk => by
      have hj3 : j < 3 := by simpa [wLinks] using hj
      interval_cases j
      · exact ⟨wApi, by simp [fetchAnalysis, wNet, wLinks]⟩
      · exact absurd rfl hjk
      · exact ⟨wApi, by simp [fetchAnalysis, wNet, wLinks]⟩)).2.2 1 (by decide)

/-- C10: each batch entry preserves every field of its originating
link: when the fetch throws, the entry is exactly the original link
with no analysis attached and no failure reason recorded; when the
fetch succeeds, the entry is the original link plus the analysis. -/
theorem analyzeLink_frame (net : String → HttpResult) (link : LinkData) :
    (∀ e, fetchAnalysis net link.href = .error e →
      analyzeLink net link =
        ⟨link.href, link.text, link.type, link.pageTitle, none⟩) ∧
    (∀ a, fetchAnalysis net link.href = .ok a →
      analyzeLink net link =
        ⟨link.href, link.text, link.type, link.pageTitle, some a⟩) := by
  constructor <;> intro x hx <;> simp [analyzeLink, hx]

/-- Witness for C10 at the failing link of wNet: the entry is the bare
original link. -/
theorem analyzeLink_frame_witness :
    analyzeLink wNet ⟨"u2", "p2", .policy, none⟩ =
      ⟨"u2", "p2", .policy, none, none⟩ :=
  (analyzeLink_frame wNet ⟨"u2", "p2", .policy, none⟩).1 "netdown"
    (by simp [fetchAnalysis, wNet])

/-- A single-link sendLinks message pointing at a url wNet resolves. -/
def oneLinkMsg : ContentScriptMessage :=
  ⟨"sendLinks", [⟨"u1", "t1", .terms, none⟩]⟩

/-- C6 counterexample: for a concrete one-link sendLinks message the
first event of the listener run is the settling of the analysis fetch
and the sendResponse acknowledgement is the last event — the
acknowledgement is issued only after the downstream batch analysis has
completed, because the listener awaits `Promise.all` before calling
sendResponse.  This refutes the claim that the acknowledgement is sent
synchronously, independent of batch completion. -/
theorem ack_after_batch_cex :
    (messageListener wNet [0] initialState oneLinkMsg).2.head? =
      some (.fetchSettled "u1") ∧
    (messageListener wNet [0] initialState oneLinkMsg).2.getLast? =
      some (.sendResponse ⟨"goodbye"⟩) := by
  constructor <;>
    simp [messageListener, oneLinkMsg, batchAnalyze, analyzeLink, fetchAnalysis, wNet]

/-- C6 amended: every inbound message is acknowledged with the fixed
payload goodbye as the final action of the listener run; for sendLinks
messages this acknowledgement follows the settling of every analysis
fetch and the state updates, rather than being sent synchronously on
receipt. -/
theorem ack_always_last (net : String → HttpResult) (sched : List Nat)
    (s : SidebarState) (msg : ContentScriptMessage) :
    ∃ pre, (messageListener net sched s msg).2 =
        pre ++ [Event.sendResponse ⟨"goodbye"⟩] ∧
      ∀ e ∈ pre, (∃ h, e = Event.fetchSettled h) ∨
        (∃ ls, e = Event.setLinks ls) ∨ e = Event.setError none := by
  by_cases ha : msg.action = "sendLinks"
  · refine ⟨(sched.filterMap fun i =>
        (msg.links[i]?).map fun l => Event.fetchSettled l.href)
        ++ [Event.setLinks (batchAnalyze net msg.links), Event.setError none], ?_, ?_⟩
    · simp [messageListener, ha]
    · intro e he
      rcases List.mem_append.mp he with hf | hs
      · obtain ⟨i, _, hi⟩ := List.mem_filterMap.mp hf
        obtain ⟨l, _, rfl⟩ := Option.map_eq_some'.mp hi
        exact Or.inl ⟨l.href, rfl⟩
      · simp only [List.mem_cons, List.not_mem_nil, or_false] at hs
        rcases hs with h | h
        · exact Or.inr (Or.inl ⟨batchAnalyze net msg.links, h⟩)
        · exact Or.inr (Or.inr h)
  · exact ⟨[], by simp [messageListener, ha], by simp⟩

/-- C7: a command-channel transport failure (sendMessage throwing) and
an explicit failure response surface identically: the controller ends
in the same error-state shape, its error set to a human-readable
reason and isInjecting reset to false with every other field untouched;
moreover a thrown Error with message m and a failure response carrying
reason m produce literally the same state. -/
theorem injectScript_failure_uniform (s : SidebarState) (r : SendMessageResult)
    (hfail : ∀ resp, r = .responded (some resp) → resp.status ≠ "success") :
    (∃ reason, injectScript s r =
      { s with isInjecting := false, error := some reason }) ∧
    ∀ m : String, m ≠ "" →
      injectScript s (.threw (some m)) =
        injectScript s (.responded (some ⟨"failure", some m⟩)) := by
  constructor
  · match r with
    | .threw m =>
        exact ⟨m.getD "Unknown error occurred", by simp [injectScript]⟩
    | .responded none =>
        exact ⟨"Failed to inject content script", by simp [injectScript]⟩
    | .responded (some resp) =>
        refine ⟨jsOrDefault resp.error "Failed to inject content script", ?_⟩
        simp [injectScript, hfail resp rfl]
  · intro m hm
    simp [injectScript, jsOrDefault, hm]

/-- Witness for C7: a transport throw with message boom at the initial
state ends idle with the error boom surfaced. -/
theorem injectScript_failure_uniform_witness :
    (∃ reason, injectScript initialState (.threw (some "boom")) =
      { initialState with isInjecting := false, error := some reason }) ∧
    ∀ m : String, m ≠ "" →
      injectScript initialState (.threw (some m)) =
        injectScript initialState (.responded (some ⟨"failure", some m⟩)) :=
  injectScript_failure_uniform initialState (.threw (some "boom"))
    (fun _ h => nomatch h)

theorem reachable_results_eq {s : SidebarState} (h : Reachable s) :
    s.results = initialResults := by
  induction h with
  | init => rfl
  | message net sched msg hs ih =>
      by_cases ha : msg.action = "sendLinks" <;>
        simpa [messageListener, ha] using ih
  | injectStart hs ih => simpa using ih
  | inject r hs ih =>
      match r with
      | .threw m => simpa [injectScript] using ih
      | .responded none => simpa [injectScript] using ih
      | .responded (some resp) =>
          by_cases hr : resp.status = "success" <;>
            simpa [injectScript, hr] using ih

/-- C9: in every reachable Sidebar state the results state is still the
hardcoded four-category map — no operation ever updates it, since its
useState setter is never taken — so the rendered composite
calculateTotalScore(results) is the constant 70 and its presentation
the blue moderate tier, independent of every fetched analysis. -/
theorem results_constant_composite_70 {s : SidebarState} (h : Reachable s) :
    s.results = initialResults ∧
    calculateTotalScore s.results = .num 70 ∧
    scoreColor (calculateTotalScore s.results) = "text-blue-600" := by
  have hr := reachable_results_eq h
  refine ⟨hr, ?_, ?_⟩ <;> rw [hr] <;>
    norm_num [calculateTotalScore, initialResults, Results.values, jsDiv,
      jsMul, jsRound, scoreColor, jsLe]

/-- Witness for C9 at the initial render. -/
theorem results_constant_composite_70_witness :
    initialState.results = initialResults ∧
    calculateTotalScore initialState.results = .num 70 ∧
    scoreColor (calculateTotalScore initialState.results) = "text-blue-600" :=
  results_constant_composite_70 Reachable.init

/-- An analysis payload whose single category score 99 violates the
0-5 data contract. -/
def overRangeApi : ApiResponse := ⟨⟨[("account_control", ⟨["q"], 99⟩)]⟩, ⟨99, "high"⟩⟩

/-- A network that returns the out-of-range payload for every url. -/
def overRangeNet : String → HttpResult := fun _ => .response true (.ok overRangeApi)

/-- C8 counterexample: a sendLinks message whose analysis carries the
out-of-range score 99 is not rejected at the channel boundary: the
listener stores the payload in the links state unchanged and still
acknowledges with goodbye.  No ProtocolViolation rejection exists in
the listener. -/
theorem out_of_range_score_accepted_cex :
    (messageListener overRangeNet [0] initialState oneLinkMsg).1.links =
      [⟨"u1", "t1", .terms, none, some overRangeApi⟩] ∧
    (messageListener overRangeNet [0] initialState oneLinkMsg).2.getLast? =
      some (.sendResponse ⟨"goodbye"⟩) := by
  constructor <;>
    simp [messageListener, oneLinkMsg, batchAnalyze, analyzeLink, fetchAnalysis,
      overRangeNet]

/-- C8 amended: the listener performs no validation and accepts
out-of-range scores into the links state, but the aggregation
arithmetic still never sees them: in every reachable state the only
map calculateTotalScore is applied to is the results state, whose
scores all lie in [0,5]. -/
theorem aggregation_input_scores_in_range {s : SidebarState} (h : Reachable s) :
    ∀ kv ∈ s.results.scores, 0 ≤ kv.2.score ∧ kv.2.score ≤ 5 := by
  rw [reachable_results_eq h]
  intro kv hkv
  simp [initialResults] at hkv
  rcases hkv with h1 | h1 | h1 | h1 <;> rw [h1] <;> norm_num

/-- Witness for the amended C8 at the initial render, instantiated at
the account control entry of the hardcoded map. -/
theorem aggregation_input_scores_in_range_witness :
    0 ≤ (ScoreData.mk ["exact quote 1", "exact quote 2"] 3).score ∧
    (ScoreData.mk ["exact quote 1", "exact quote 2"] 3).score ≤ 5 :=
  aggregation_input_scores_in_range Reachable.init
    ("account_control", ⟨["exact quote 1", "exact quote 2"], 3⟩)
    (by simp [initialState, initialResults])

/-- The aggregation input the specification prescribes, stated from the
words of the spec: the union of the CategoryMaps of the links whose
analysis succeeded in the scan; failed links are excluded. -/
def specAggregationInput (ls : List AnalyzedLink) : Results :=
  ⟨((ls.filterMap AnalyzedLink.analysis).map fun a => a.scores.scores).flatten⟩

/-- An analysis payload whose single category scores 0. -/
def zeroScoreApi : ApiResponse := ⟨⟨[("x", ⟨[], 0⟩)]⟩, ⟨0, "low"⟩⟩

/-- A network that returns the all-zero payload for every url. -/
def zeroScoreNet : String → HttpResult := fun _ => .response true (.ok zeroScoreApi)

/-- C5: deliver one link whose analysis succeeds with an all-zero
CategoryMap.  The specification prescribes the composite be computed
from exactly that successful map — round(100 * 0 / 5) = 0 — but the
panel still renders calculateTotalScore of the hardcoded results
state, 70: the composite the panel exposes ignores the per-link
results entirely. -/
theorem composite_ignores_fetched_analyses :
    (messageListener zeroScoreNet [0] initialState oneLinkMsg).1.links.filterMap
        AnalyzedLink.analysis = [zeroScoreApi] ∧
    calculateTotalScore
        (messageListener zeroScoreNet [0] initialState oneLinkMsg).1.results =
      .num 70 ∧
    calculateTotalScore
        (specAggregationInput
          (messageListener zeroScoreNet [0] initialState oneLinkMsg).1.links) =
      .num 0 := by
  refine ⟨?_, ?_, ?_⟩
  · simp [messageListener, oneLinkMsg, batchAnalyze, analyzeLink, fetchAnalysis,
      zeroScoreNet]
  · have : (messageListener zeroScoreNet [0] initialState oneLinkMsg).1.results =
        initialResults :=
      reachable_results_eq (Reachable.message zeroScoreNet [0] oneLinkMsg Reachable.init)
    rw [this]
    norm_num [calculateTotalScore, initialResults, Results.values, jsDiv, jsMul, jsRound]
  · have hlinks : (messageListener zeroScoreNet [0] initialState oneLinkMsg).1.links =
        [⟨"u1", "t1", .terms, none, some zeroScoreApi⟩] := by
      simp [messageListener, oneLinkMsg, batchAnalyze, analyzeLink, fetchAnalysis,
        zeroScoreNet]
    rw [hlinks]
    have hspec : specAggregationInput
        [⟨"u1", "t1", .terms, none, some zeroScoreApi⟩] = ⟨[("x", ⟨[], 0⟩)]⟩ := by
      simp [specAggregationInput, zeroScoreApi]
    rw [hspec]
    norm_num [calculateTotalScore, Results.values, jsDiv, jsMul, jsRound]

end TrustFactor
